import Mathlib

/-!
Shallow embedding of `src/torch/nn/modules/linear.py`: the `Linear`,
`Bilinear` and `FiLM` modules, together with the tensor-library
operations they invoke.  Tensors are modelled as a shape (list of
dimension sizes) plus a total valuation on index lists; numeric values
are rationals, an exact idealization of the floating-point arithmetic.
Fallible library calls return `Option`, with `none` standing for a
raised error.
-/

/-- An n-dimensional tensor: a shape and a valuation giving the entry
at each index list (arbitrary outside the valid range). -/
structure Tensor where
  shape : List ℕ
  val : List ℕ → ℚ

namespace Tensor

/-- `t.dim` is the rank (number of axes), `input.dim()` in the source. -/
def dim (t : Tensor) : ℕ := t.shape.length

/-- `t.size i`, the size of axis `i` (`weight.size(1)` in the source). -/
def size (t : Tensor) (i : ℕ) : ℕ := t.shape.getD i 0

/-- `torch.Tensor(shape)`: allocation without initialization; the
uninitialized memory is modelled as all zeros. -/
def alloc (shape : List ℕ) : Tensor := ⟨shape, fun _ => 0⟩

/-- `t.unsqueeze(-1)`: append one singleton axis. -/
def unsqueezeLast (t : Tensor) : Tensor :=
  ⟨t.shape ++ [1], fun idx => t.val idx.dropLast⟩

/-- `k` successive applications of `unsqueeze(-1)`, as the loop in
`FiLM.forward` performs. -/
def unsqueezeLastN (t : Tensor) : ℕ → Tensor
  | 0 => t
  | k + 1 => (t.unsqueezeLastN k).unsqueezeLast

/-- `t[b]`: the slice of `t` at position `b` of the first axis. -/
def select0 (t : Tensor) (b : ℕ) : Tensor :=
  ⟨t.shape.tail, fun idx => t.val (b :: idx)⟩

/-- `idx` is a valid multi-index for `shape`. -/
def validIdx : List ℕ → List ℕ → Bool
  | [], [] => true
  | d :: s, i :: is => decide (i < d) && validIdx s is
  | _, _ => false

end Tensor

/-- Combine the sizes of one axis of two broadcast operands: equal
sizes agree, a size-1 axis stretches to the other, anything else is a
shape error (standard broadcasting; the tensor library is an external
collaborator, so this follows the spec's standard-broadcasting rule). -/
def broadcastDim (a b : ℕ) : Option ℕ :=
  if a = b then some a
  else if a = 1 then some b
  else if b = 1 then some a
  else none

/-- Combine two aligned (equal-length) shapes axis by axis. -/
def zipBcast : List ℕ → List ℕ → Option (List ℕ)
  | [], [] => some []
  | a :: s, b :: t => do
      let d ← broadcastDim a b
      let r ← zipBcast s t
      pure (d :: r)
  | _, _ => none

/-- Left-pad a shape with singleton axes up to rank `n`. -/
def padTo (n : ℕ) (s : List ℕ) : List ℕ :=
  List.replicate (n - s.length) 1 ++ s

/-- The broadcast of two shapes: align ranks by left-padding with 1s,
then combine axis by axis. -/
def broadcastShape (s1 s2 : List ℕ) : Option (List ℕ) :=
  zipBcast (padTo (max s1.length s2.length) s1) (padTo (max s1.length s2.length) s2)

/-- Clamp a multi-index to an operand's shape: an axis of size 1 is
always read at position 0 (it was stretched). -/
def clampIdx (s idx : List ℕ) : List ℕ :=
  List.zipWith (fun d i => if d = 1 then 0 else i) s idx

/-- The index at which a broadcast operand of shape `s` is read when
the result is read at `idx`: drop the axes the operand does not have,
then clamp the stretched ones. -/
def bcastIdx (s idx : List ℕ) : List ℕ :=
  clampIdx s (idx.drop (idx.length - s.length))

namespace Tensor

/-- Elementwise binary operation with standard broadcasting; `none` is
the tensor library's shape error on incompatible shapes. -/
def bcastOp (f : ℚ → ℚ → ℚ) (t1 t2 : Tensor) : Option Tensor :=
  match broadcastShape t1.shape t2.shape with
  | none => none
  | some s =>
      some ⟨s, fun idx => f (t1.val (bcastIdx t1.shape idx)) (t2.val (bcastIdx t2.shape idx))⟩

end Tensor

namespace F

/-- Modelled from the spec: `torch.nn.functional.linear` is not under
`src/` (only its caller `Linear.forward` is).  Per the spec it computes
`output[..., j] = Σ_i input[..., i] * weight[j, i] + bias[j]` (bias
term only when configured), returns shape `(..., out_features)`, and
fails with a shape error when the input's trailing dimension does not
equal `in_features`. -/
def linear (input weight : Tensor) (bias : Option Tensor) : Option Tensor :=
  match weight.shape with
  | [outF, inF] =>
    match input.shape.getLast? with
    | some d =>
      if d = inF then
        some ⟨input.shape.dropLast ++ [outF], fun idx =>
          (∑ i ∈ Finset.range inF,
            input.val (idx.dropLast ++ [i]) * weight.val [idx.getLastD 0, i]) +
          (match bias with | some b => b.val [idx.getLastD 0] | none => 0)⟩
      else none
    | none => none
  | _ => none

/-- Modelled from the spec: `torch.nn.functional.bilinear` is not under
`src/` (only its caller `Bilinear.forward` is).  Per the spec it
computes `output[..., j] = Σ_i Σ_k input1[..., i] * weight[j, i, k] *
input2[..., k] + bias[j]`, returns shape `(..., out_features)`, and
fails with a shape error when a trailing dimension is wrong or the two
leading dimension sequences differ. -/
def bilinear (input1 input2 weight : Tensor) (bias : Option Tensor) : Option Tensor :=
  match weight.shape with
  | [outF, in1F, in2F] =>
    match input1.shape.getLast?, input2.shape.getLast? with
    | some d1, some d2 =>
      if d1 = in1F ∧ d2 = in2F ∧ input1.shape.dropLast = input2.shape.dropLast then
        some ⟨input1.shape.dropLast ++ [outF], fun idx =>
          (∑ i ∈ Finset.range in1F, ∑ k ∈ Finset.range in2F,
            input1.val (idx.dropLast ++ [i]) * weight.val [idx.getLastD 0, i, k] *
              input2.val (idx.dropLast ++ [k])) +
          (match bias with | some b => b.val [idx.getLastD 0] | none => 0)⟩
      else none
    | _, _ => none
  | _ => none

end F

/-- `x` lies in the closed interval `[-1/√fanIn, 1/√fanIn]`, stated
squared so it is decidable over `ℚ`: `x² · fanIn ≤ 1`.  This is the
contract of `uniform_(-stdv, stdv)` with `stdv = 1/math.sqrt(fanIn)`;
the uniform random source itself is an external collaborator. -/
def inInitBound (fanIn : ℕ) (x : ℚ) : Prop := x ^ 2 * (fanIn : ℚ) ≤ 1

instance (fanIn : ℕ) (x : ℚ) : Decidable (inInitBound fanIn x) := by
  unfold inInitBound; infer_instance

/-- The `Linear` module: configuration plus owned parameters. -/
structure Linear where
  in_features : ℕ
  out_features : ℕ
  weight : Tensor
  bias : Option Tensor

namespace Linear

/-- `Linear.reset_parameters`: first computes
`stdv = 1. / math.sqrt(self.weight.size(1))`, which raises
`ZeroDivisionError` when `weight.size(1) = 0` (`1./0.0`) — modelled as
`none`; otherwise refills the weight, and the bias when present, with
fresh draws (`uniform_` mutates every element in place; the draws,
lying in `[-stdv, stdv]`, are supplied by the external random source
`sW`/`sB`). -/
def resetParameters (m : Linear) (sW sB : List ℕ → ℚ) : Option Linear :=
  if m.weight.size 1 = 0 then none
  else some
    { m with
      weight := ⟨m.weight.shape, sW⟩,
      bias := m.bias.map fun b => ⟨b.shape, sB⟩ }

/-- `Linear.__init__`: record the configuration, allocate weight
`(out_features, in_features)` and optionally bias `(out_features,)`,
then call `reset_parameters`.  No validation is performed; the only
failure path is `reset_parameters`' division by `math.sqrt(0)`. -/
def init (inF outF : ℕ) (bias : Bool) (sW sB : List ℕ → ℚ) : Option Linear :=
  resetParameters
    { in_features := inF, out_features := outF,
      weight := Tensor.alloc [outF, inF],
      bias := if bias then some (Tensor.alloc [outF]) else none } sW sB

/-- `Linear.forward`: delegate to `F.linear`. -/
def forward (m : Linear) (input : Tensor) : Option Tensor :=
  F.linear input m.weight m.bias

end Linear

/-- The `Bilinear` module: configuration plus owned parameters. -/
structure Bilinear where
  in1_features : ℕ
  in2_features : ℕ
  out_features : ℕ
  weight : Tensor
  bias : Option Tensor

namespace Bilinear

/-- `Bilinear.reset_parameters`, as for `Linear`: the
`stdv = 1. / math.sqrt(self.weight.size(1))` computation raises
`ZeroDivisionError` when `weight.size(1)` (= `in1_features`) is zero,
modelled as `none`; otherwise the draws refill weight and bias. -/
def resetParameters (m : Bilinear) (sW sB : List ℕ → ℚ) : Option Bilinear :=
  if m.weight.size 1 = 0 then none
  else some
    { m with
      weight := ⟨m.weight.shape, sW⟩,
      bias := m.bias.map fun b => ⟨b.shape, sB⟩ }

/-- `Bilinear.__init__`: record the configuration, allocate weight
`(out_features, in1_features, in2_features)` and optionally bias
`(out_features,)`, then call `reset_parameters`.  No validation; the
only failure path is `reset_parameters`' division by `math.sqrt(0)`. -/
def init (in1F in2F outF : ℕ) (bias : Bool) (sW sB : List ℕ → ℚ) : Option Bilinear :=
  resetParameters
    { in1_features := in1F, in2_features := in2F, out_features := outF,
      weight := Tensor.alloc [outF, in1F, in2F],
      bias := if bias then some (Tensor.alloc [outF]) else none } sW sB

/-- `Bilinear.forward`: delegate to `F.bilinear`. -/
def forward (m : Bilinear) (input1 input2 : Tensor) : Option Tensor :=
  F.bilinear input1 input2 m.weight m.bias

end Bilinear

namespace FiLM

/-- `FiLM.forward`, straight from the source: unsqueeze `gammas` and
`betas` at the last position `input.dim() - 2` times, then return
`gammas * input + betas` under the tensor library's broadcasting. -/
def forward (input gammas betas : Tensor) : Option Tensor :=
  let g := gammas.unsqueezeLastN (input.dim - 2)
  let b := betas.unsqueezeLastN (input.dim - 2)
  (Tensor.bcastOp (fun x y => x * y) g input).bind fun p =>
    Tensor.bcastOp (fun x y => x + y) p b

end FiLM

/-! ### Helper lemmas -/

theorem F.linear_spec (input weight : Tensor) (bias : Option Tensor) (outF inF : ℕ)
    (lead : List ℕ) (hw : weight.shape = [outF, inF]) (hin : input.shape = lead ++ [inF]) :
    F.linear input weight bias = some ⟨lead ++ [outF], fun idx =>
      (∑ i ∈ Finset.range inF,
        input.val (idx.dropLast ++ [i]) * weight.val [idx.getLastD 0, i]) +
      (match bias with | some b => b.val [idx.getLastD 0] | none => 0)⟩ := by
  unfold F.linear
  rw [hw, hin]
  simp [List.getLast?_concat, List.dropLast_concat]

theorem Linear.init_eq (inF outF : ℕ) (hasB : Bool) (sW sB : List ℕ → ℚ)
    (hpos : inF ≠ 0) :
    Linear.init inF outF hasB sW sB = some
      { in_features := inF, out_features := outF,
        weight := ⟨[outF, inF], sW⟩,
        bias := if hasB then some ⟨[outF], sB⟩ else none } := by
  unfold Linear.init Linear.resetParameters
  cases hasB <;> simp [Tensor.alloc, Tensor.size, hpos]

theorem Linear.init_zero (outF : ℕ) (hasB : Bool) (sW sB : List ℕ → ℚ) :
    Linear.init 0 outF hasB sW sB = none := rfl

theorem Linear.init_fanin_pos {inF outF : ℕ} {hasB : Bool} {sW sB : List ℕ → ℚ}
    {m : Linear} (hm : Linear.init inF outF hasB sW sB = some m) : inF ≠ 0 := by
  intro h
  subst h
  rw [Linear.init_zero] at hm
  exact Option.noConfusion hm

theorem Bilinear.binit_eq (in1F in2F outF : ℕ) (hasB : Bool) (sW sB : List ℕ → ℚ)
    (hpos : in1F ≠ 0) :
    Bilinear.init in1F in2F outF hasB sW sB = some
      { in1_features := in1F, in2_features := in2F, out_features := outF,
        weight := ⟨[outF, in1F, in2F], sW⟩,
        bias := if hasB then some ⟨[outF], sB⟩ else none } := by
  unfold Bilinear.init Bilinear.resetParameters
  cases hasB <;> simp [Tensor.alloc, Tensor.size, hpos]

theorem Bilinear.binit_zero (in2F outF : ℕ) (hasB : Bool) (sW sB : List ℕ → ℚ) :
    Bilinear.init 0 in2F outF hasB sW sB = none := rfl

theorem Bilinear.binit_fanin_pos {in1F in2F outF : ℕ} {hasB : Bool}
    {sW sB : List ℕ → ℚ} {m : Bilinear}
    (hm : Bilinear.init in1F in2F outF hasB sW sB = some m) : in1F ≠ 0 := by
  intro h
  subst h
  rw [Bilinear.binit_zero] at hm
  exact Option.noConfusion hm

/-! ### Claim theorems -/

/-- C2: For every AffineTransform constructed with `in_features` and
`out_features` and every input of shape `(..., in_features)` with zero
or more leading dimensions, `forward(input)` returns a tensor of shape
`(..., out_features)` whose entries satisfy
`output[..., j] = Σ_i input[..., i] * weight[j, i]`, plus `bias[j]`
exactly when bias is configured. -/
theorem C2_linear_forward (inF outF : ℕ) (hasB : Bool) (sW sB : List ℕ → ℚ)
    (lead : List ℕ) (input : Tensor) (m : Linear)
    (hm : Linear.init inF outF hasB sW sB = some m)
    (hin : input.shape = lead ++ [inF]) :
    ∃ out : Tensor,
      m.forward input = some out ∧
      out.shape = lead ++ [outF] ∧
      ∀ lidx : List ℕ, ∀ j : ℕ,
        out.val (lidx ++ [j]) =
          (∑ i ∈ Finset.range inF, input.val (lidx ++ [i]) * m.weight.val [j, i]) +
          (match m.bias with | some b => b.val [j] | none => 0) := by
  have hpos : inF ≠ 0 := Linear.init_fanin_pos hm
  have hmeq := (Linear.init_eq inF outF hasB sW sB hpos).symm.trans hm
  rw [Option.some.injEq] at hmeq
  subst hmeq
  refine ⟨_, F.linear_spec input _ _ outF inF lead rfl hin, rfl, ?_⟩
  intro lidx j
  simp [List.dropLast_concat, List.getLastD_concat]

/-- Witness for C2: `Linear(2, 1)` without bias, constant weight `1`,
on input `[3, 3]` returns the one-element tensor `[6]`. -/
theorem C2_linear_forward_witness :
    Linear.init 2 1 false (fun _ => 1) (fun _ => 0) =
      some ⟨2, 1, ⟨[1, 2], fun _ => 1⟩, none⟩ ∧
    ((⟨2, 1, ⟨[1, 2], fun _ => 1⟩, none⟩ : Linear).forward
        ⟨[2], fun _ => 3⟩).map Tensor.shape = some [1] ∧
    ((⟨2, 1, ⟨[1, 2], fun _ => 1⟩, none⟩ : Linear).forward
        ⟨[2], fun _ => 3⟩).map (fun t => t.val [0]) = some 6 := by
  obtain ⟨out, hout, hshape, hval⟩ :=
    C2_linear_forward 2 1 false (fun _ => 1) (fun _ => 0) [] ⟨[2], fun _ => 3⟩
      ⟨2, 1, ⟨[1, 2], fun _ => 1⟩, none⟩ rfl rfl
  have h0 := hval [] 0
  rw [hout]
  norm_num [Finset.sum_range_succ] at h0
  refine ⟨rfl, ?_, ?_⟩
  · simp [hshape]
  · show some (out.val [0]) = some 6
    rw [show out.val [0] = 6 from h0]

/-- C8: For every AffineTransform with declared `in_features` and every
input whose trailing dimension differs from `in_features`, `forward`
fails (returns the shape error) without performing any arithmetic. -/
theorem C8_linear_shape_mismatch (inF outF : ℕ) (hasB : Bool) (sW sB : List ℕ → ℚ)
    (lead : List ℕ) (d : ℕ) (input : Tensor) (m : Linear)
    (hm : Linear.init inF outF hasB sW sB = some m)
    (hin : input.shape = lead ++ [d]) (hne : d ≠ inF) :
    m.forward input = none := by
  have hpos : inF ≠ 0 := Linear.init_fanin_pos hm
  have hmeq := (Linear.init_eq inF outF hasB sW sB hpos).symm.trans hm
  rw [Option.some.injEq] at hmeq
  subst hmeq
  unfold Linear.forward F.linear
  rw [hin]
  simp [List.getLast?_concat, hne]

/-- Witness for C8: `Linear(4, 3)` applied to an input of shape `(5,)`
fails. -/
theorem C8_linear_shape_mismatch_witness :
    Linear.init 4 3 true (fun _ => 0) (fun _ => 0) =
      some ⟨4, 3, ⟨[3, 4], fun _ => 0⟩, some ⟨[3], fun _ => 0⟩⟩ ∧
    (⟨4, 3, ⟨[3, 4], fun _ => 0⟩, some ⟨[3], fun _ => 0⟩⟩ : Linear).forward
      ⟨[5], fun _ => 0⟩ = none :=
  ⟨rfl,
    C8_linear_shape_mismatch 4 3 true (fun _ => 0) (fun _ => 0) [] 5 ⟨[5], fun _ => 0⟩
      ⟨4, 3, ⟨[3, 4], fun _ => 0⟩, some ⟨[3], fun _ => 0⟩⟩ rfl rfl (by decide)⟩

theorem F.bilinear_spec (input1 input2 weight : Tensor) (bias : Option Tensor)
    (outF in1F in2F : ℕ) (lead : List ℕ) (hw : weight.shape = [outF, in1F, in2F])
    (hin1 : input1.shape = lead ++ [in1F]) (hin2 : input2.shape = lead ++ [in2F]) :
    F.bilinear input1 input2 weight bias = some ⟨lead ++ [outF], fun idx =>
      (∑ i ∈ Finset.range in1F, ∑ k ∈ Finset.range in2F,
        input1.val (idx.dropLast ++ [i]) * weight.val [idx.getLastD 0, i, k] *
          input2.val (idx.dropLast ++ [k])) +
      (match bias with | some b => b.val [idx.getLastD 0] | none => 0)⟩ := by
  unfold F.bilinear
  rw [hw, hin1, hin2]
  simp [List.getLast?_concat, List.dropLast_concat]

/-- C1: For every BilinearTransform constructed with `in1_features`,
`in2_features`, `out_features` and every pair of inputs of shapes
`(..., in1_features)` and `(..., in2_features)` with identical leading
dimensions, `forward(input1, input2)` returns a tensor of shape
`(..., out_features)` with
`output[..., j] = Σ_i Σ_k input1[..., i] * weight[j, i, k] * input2[..., k]`,
plus `bias[j]` when bias is configured. -/
theorem C1_bilinear_forward (in1F in2F outF : ℕ) (hasB : Bool) (sW sB : List ℕ → ℚ)
    (lead : List ℕ) (input1 input2 : Tensor) (m : Bilinear)
    (hm : Bilinear.init in1F in2F outF hasB sW sB = some m)
    (hin1 : input1.shape = lead ++ [in1F]) (hin2 : input2.shape = lead ++ [in2F]) :
    ∃ out : Tensor,
      m.forward input1 input2 = some out ∧
      out.shape = lead ++ [outF] ∧
      ∀ lidx : List ℕ, ∀ j : ℕ,
        out.val (lidx ++ [j]) =
          (∑ i ∈ Finset.range in1F, ∑ k ∈ Finset.range in2F,
            input1.val (lidx ++ [i]) * m.weight.val [j, i, k] *
              input2.val (lidx ++ [k])) +
          (match m.bias with | some b => b.val [j] | none => 0) := by
  have hpos : in1F ≠ 0 := Bilinear.binit_fanin_pos hm
  have hmeq := (Bilinear.binit_eq in1F in2F outF hasB sW sB hpos).symm.trans hm
  rw [Option.some.injEq] at hmeq
  subst hmeq
  refine ⟨_, F.bilinear_spec input1 input2 _ _ outF in1F in2F lead rfl hin1 hin2, rfl, ?_⟩
  intro lidx j
  simp [List.dropLast_concat, List.getLastD_concat]

/-- Witness for C1, the literal check from the spec: `in1 = in2 = 2`,
`out = 1`, `weight = [[[1,0],[0,1]]]`, no bias, `input1 = [1,2]`,
`input2 = [3,4]` gives output `[11]`. -/
theorem C1_bilinear_forward_witness :
    Bilinear.init 2 2 1 false
        (fun idx => if idx = [0, 0, 0] ∨ idx = [0, 1, 1] then 1 else 0) (fun _ => 0) =
      some ⟨2, 2, 1,
        ⟨[1, 2, 2], fun idx => if idx = [0, 0, 0] ∨ idx = [0, 1, 1] then 1 else 0⟩,
        none⟩ ∧
    ((⟨2, 2, 1,
        ⟨[1, 2, 2], fun idx => if idx = [0, 0, 0] ∨ idx = [0, 1, 1] then 1 else 0⟩,
        none⟩ : Bilinear).forward
      ⟨[2], fun idx => if idx = [0] then 1 else 2⟩
      ⟨[2], fun idx => if idx = [0] then 3 else 4⟩).map (fun t => t.val [0]) = some 11 := by
  refine ⟨rfl, ?_⟩
  obtain ⟨out, hout, hshape, hval⟩ :=
    C1_bilinear_forward 2 2 1 false
      (fun idx => if idx = [0, 0, 0] ∨ idx = [0, 1, 1] then 1 else 0) (fun _ => 0) []
      ⟨[2], fun idx => if idx = [0] then 1 else 2⟩
      ⟨[2], fun idx => if idx = [0] then 3 else 4⟩
      ⟨2, 2, 1,
        ⟨[1, 2, 2], fun idx => if idx = [0, 0, 0] ∨ idx = [0, 1, 1] then 1 else 0⟩,
        none⟩ rfl rfl rfl
  have h0 := hval [] 0
  norm_num [Finset.sum_range_succ] at h0
  rw [hout]
  show some (out.val [0]) = some 11
  rw [show out.val [0] = 11 from h0]

/-- C9: For every AffineTransform with fixed parameters and every input
of shape `(B1, B2, in_features)`, `forward` gives output of shape
`(B1, B2, out_features)` whose slice at every `b < B1` agrees entrywise
with `forward` of the corresponding input slice of shape
`(B2, in_features)`. -/
theorem C9_linear_slice_consistency (inF outF B1 B2 : ℕ) (hasB : Bool)
    (sW sB : List ℕ → ℚ) (input : Tensor) (m : Linear)
    (hm : Linear.init inF outF hasB sW sB = some m)
    (hin : input.shape = [B1, B2, inF]) :
    ∃ o3 : Tensor,
      m.forward input = some o3 ∧
      o3.shape = [B1, B2, outF] ∧
      ∀ b : ℕ, b < B1 →
        ∃ o2 : Tensor,
          m.forward (input.select0 b) = some o2 ∧
          o2.shape = [B2, outF] ∧
          ∀ i j : ℕ, (o3.select0 b).val [i, j] = o2.val [i, j] := by
  have hpos : inF ≠ 0 := Linear.init_fanin_pos hm
  have hmeq := (Linear.init_eq inF outF hasB sW sB hpos).symm.trans hm
  rw [Option.some.injEq] at hmeq
  subst hmeq
  refine ⟨_, F.linear_spec input _ _ outF inF [B1, B2] rfl hin, rfl, ?_⟩
  intro b hb
  refine ⟨_, F.linear_spec (input.select0 b) _ _ outF inF [B2] rfl ?_, rfl, ?_⟩
  · show input.shape.tail = [B2] ++ [inF]
    rw [hin]
    rfl
  · intro i j
    rfl

/-- Witness for C9: a concrete `(2, 1, 1)` input for `Linear(1, 1)`. -/
theorem C9_linear_slice_consistency_witness :
    Linear.init 1 1 true (fun _ => 1) (fun _ => 1) =
      some ⟨1, 1, ⟨[1, 1], fun _ => 1⟩, some ⟨[1], fun _ => 1⟩⟩ ∧
    ∃ o3 : Tensor,
      (⟨1, 1, ⟨[1, 1], fun _ => 1⟩, some ⟨[1], fun _ => 1⟩⟩ : Linear).forward
          ⟨[2, 1, 1], fun _ => 2⟩ = some o3 ∧
      o3.shape = [2, 1, 1] ∧
      ∀ b : ℕ, b < 2 →
        ∃ o2 : Tensor,
          (⟨1, 1, ⟨[1, 1], fun _ => 1⟩, some ⟨[1], fun _ => 1⟩⟩ : Linear).forward
              ((Tensor.mk [2, 1, 1] (fun _ => 2)).select0 b) = some o2 ∧
          o2.shape = [1, 1] ∧
          ∀ i j : ℕ, (o3.select0 b).val [i, j] = o2.val [i, j] :=
  ⟨rfl, C9_linear_slice_consistency 1 1 2 1 true (fun _ => 1) (fun _ => 1)
    ⟨[2, 1, 1], fun _ => 2⟩ ⟨1, 1, ⟨[1, 1], fun _ => 1⟩, some ⟨[1], fun _ => 1⟩⟩ rfl rfl⟩

/-- C7: With `has_bias = false` the bias is explicitly absent (`none`,
not a zero tensor); with `has_bias = true` it has shape
`(out_features,)`; both facts hold after construction and are preserved
by `reset_parameters`, for both `Linear` and `Bilinear`. -/
theorem C7_bias_invariant (inF outF in1F in2F : ℕ) (sW sB : List ℕ → ℚ) :
    (∀ m : Linear, Linear.init inF outF false sW sB = some m → m.bias = none) ∧
    (∀ m : Linear, Linear.init inF outF true sW sB = some m →
      m.bias.map Tensor.shape = some [outF]) ∧
    (∀ m m2 : Linear, m.resetParameters sW sB = some m2 →
      (m2.bias = none ↔ m.bias = none) ∧
      m2.bias.map Tensor.shape = m.bias.map Tensor.shape) ∧
    (∀ m : Bilinear, Bilinear.init in1F in2F outF false sW sB = some m →
      m.bias = none) ∧
    (∀ m : Bilinear, Bilinear.init in1F in2F outF true sW sB = some m →
      m.bias.map Tensor.shape = some [outF]) ∧
    (∀ m m2 : Bilinear, m.resetParameters sW sB = some m2 →
      (m2.bias = none ↔ m.bias = none) ∧
      m2.bias.map Tensor.shape = m.bias.map Tensor.shape) := by
  refine ⟨?_, ?_, ?_, ?_, ?_, ?_⟩
  · intro m hm
    have hpos : inF ≠ 0 := Linear.init_fanin_pos hm
    have hmeq := (Linear.init_eq inF outF false sW sB hpos).symm.trans hm
    rw [Option.some.injEq] at hmeq
    subst hmeq
    rfl
  · intro m hm
    have hpos : inF ≠ 0 := Linear.init_fanin_pos hm
    have hmeq := (Linear.init_eq inF outF true sW sB hpos).symm.trans hm
    rw [Option.some.injEq] at hmeq
    subst hmeq
    rfl
  · intro m m2 hm
    unfold Linear.resetParameters at hm
    by_cases h0 : m.weight.size 1 = 0
    · simp [h0] at hm
    · rw [if_neg h0, Option.some.injEq] at hm
      subst hm
      cases h : m.bias <;> simp [h]
  · intro m hm
    have hpos : in1F ≠ 0 := Bilinear.binit_fanin_pos hm
    have hmeq := (Bilinear.binit_eq in1F in2F outF false sW sB hpos).symm.trans hm
    rw [Option.some.injEq] at hmeq
    subst hmeq
    rfl
  · intro m hm
    have hpos : in1F ≠ 0 := Bilinear.binit_fanin_pos hm
    have hmeq := (Bilinear.binit_eq in1F in2F outF true sW sB hpos).symm.trans hm
    rw [Option.some.injEq] at hmeq
    subst hmeq
    rfl
  · intro m m2 hm
    unfold Bilinear.resetParameters at hm
    by_cases h0 : m.weight.size 1 = 0
    · simp [h0] at hm
    · rw [if_neg h0, Option.some.injEq] at hm
      subst hm
      cases h : m.bias <;> simp [h]

/-- Witness for C7: concrete `Linear(2, 3)` constructions with and
without bias. -/
theorem C7_bias_invariant_witness :
    (⟨2, 3, ⟨[3, 2], fun _ => 0⟩, none⟩ : Linear).bias = none ∧
    (⟨2, 3, ⟨[3, 2], fun _ => 0⟩, some ⟨[3], fun _ => 0⟩⟩ : Linear).bias.map
      Tensor.shape = some [3] := by
  have h := C7_bias_invariant 2 3 2 2 (fun _ => 0) (fun _ => 0)
  exact ⟨h.1 ⟨2, 3, ⟨[3, 2], fun _ => 0⟩, none⟩ rfl,
    h.2.1 ⟨2, 3, ⟨[3, 2], fun _ => 0⟩, some ⟨[3], fun _ => 0⟩⟩ rfl⟩

/-- Counterexample to C6: construction with a non-positive feature
count does not fail with a ConfigurationError —
`Linear(in_features=5, out_features=0)` and `Bilinear(3, 0, 5)` (with
`in2_features = 0`) construct fully, recording the configuration and
allocating the parameter tensors, with no validation check anywhere. -/
theorem C6_ctor_no_validation_cex :
    (Linear.init 5 0 true (fun _ => 0) (fun _ => 0)).map (fun m => m.weight.shape) =
      some [0, 5] ∧
    (Linear.init 5 0 true (fun _ => 0) (fun _ => 0)).map (fun m => m.out_features) =
      some 0 ∧
    (Linear.init 5 0 true (fun _ => 0) (fun _ => 0)).map
        (fun m => m.bias.map Tensor.shape) = some (some [0]) ∧
    (Bilinear.init 3 0 5 true (fun _ => 0) (fun _ => 0)).map (fun m => m.weight.shape) =
      some [5, 3, 0] ∧
    (Bilinear.init 3 0 5 true (fun _ => 0) (fun _ => 0)).map (fun m => m.in2_features) =
      some 0 :=
  ⟨rfl, rfl, rfl, rfl, rfl⟩

/-- C6 amended: construction performs no validation of the feature
counts and no ConfigurationError exists: the parameter tensors are
allocated unconditionally, construction succeeds whole for every
configuration whose fan-in axis (`in_features` / `in1_features`) is
nonzero — non-positive `out_features` or `in2_features` included — and
when the fan-in is zero it fails only afterwards, in
`reset_parameters`' division `1./math.sqrt(0)` (a ZeroDivisionError,
not a ConfigurationError), after the tensors were already allocated. -/
theorem C6_ctor_amended (inF outF in1F in2F : ℕ) (hasB : Bool) (sW sB : List ℕ → ℚ) :
    (inF ≠ 0 → Linear.init inF outF hasB sW sB = some
      { in_features := inF, out_features := outF,
        weight := ⟨[outF, inF], sW⟩,
        bias := if hasB then some ⟨[outF], sB⟩ else none }) ∧
    Linear.init 0 outF hasB sW sB = none ∧
    (in1F ≠ 0 → Bilinear.init in1F in2F outF hasB sW sB = some
      { in1_features := in1F, in2_features := in2F, out_features := outF,
        weight := ⟨[outF, in1F, in2F], sW⟩,
        bias := if hasB then some ⟨[outF], sB⟩ else none }) ∧
    Bilinear.init 0 in2F outF hasB sW sB = none :=
  ⟨fun h => Linear.init_eq inF outF hasB sW sB h,
   Linear.init_zero outF hasB sW sB,
   fun h => Bilinear.binit_eq in1F in2F outF hasB sW sB h,
   Bilinear.binit_zero in2F outF hasB sW sB⟩

/-- Witness for the amended C6: `Linear(5, 0)` constructs fully while
`Linear(0, 7)` fails in the initializer. -/
theorem C6_ctor_amended_witness :
    Linear.init 5 0 true (fun _ => 0) (fun _ => 0) = some
      { in_features := 5, out_features := 0,
        weight := ⟨[0, 5], fun _ => 0⟩,
        bias := if true then some ⟨[0], fun _ => 0⟩ else none } ∧
    Linear.init 0 7 true (fun _ => 0) (fun _ => 0) = none :=
  ⟨(C6_ctor_amended 5 0 3 0 true (fun _ => 0) (fun _ => 0)).1 (by decide),
   (C6_ctor_amended 5 7 3 0 true (fun _ => 0) (fun _ => 0)).2.1⟩

/-- C4: the initialization fan-in is the weight's second axis —
`in_features` for `Linear`, `in1_features` (not any combination with
`in2_features`) for `Bilinear` — and every element drawn by `uniform_`
within the contract `x² · fan_in ≤ 1` (that is, `|x| ≤ 1/√fan_in`)
lies, for `Linear(100, 1)`, in the closed interval `[-1/10, 1/10]`. -/
theorem C4_init_bound :
    (∀ inF outF : ℕ, ∀ hasB : Bool, ∀ sW sB : List ℕ → ℚ, ∀ m : Linear,
      Linear.init inF outF hasB sW sB = some m → m.weight.size 1 = inF) ∧
    (∀ i1 i2 o : ℕ, ∀ hasB : Bool, ∀ sW sB : List ℕ → ℚ, ∀ m : Bilinear,
      Bilinear.init i1 i2 o hasB sW sB = some m → m.weight.size 1 = i1) ∧
    (∀ sW sB : List ℕ → ℚ, ∀ m : Linear,
      Linear.init 100 1 true sW sB = some m →
      (∀ idx, inInitBound (m.weight.size 1) (sW idx)) →
      (∀ idx, inInitBound (m.weight.size 1) (sB idx)) →
      ∀ idx : List ℕ,
        (-(1/10 : ℚ) ≤ m.weight.val idx ∧ m.weight.val idx ≤ 1/10) ∧
        ∀ b : Tensor, m.bias = some b →
          -(1/10 : ℚ) ≤ b.val idx ∧ b.val idx ≤ 1/10) := by
  refine ⟨?_, ?_, ?_⟩
  · intro inF outF hasB sW sB m hm
    have hpos : inF ≠ 0 := Linear.init_fanin_pos hm
    have hmeq := (Linear.init_eq inF outF hasB sW sB hpos).symm.trans hm
    rw [Option.some.injEq] at hmeq
    subst hmeq
    rfl
  · intro i1 i2 o hasB sW sB m hm
    have hpos : i1 ≠ 0 := Bilinear.binit_fanin_pos hm
    have hmeq := (Bilinear.binit_eq i1 i2 o hasB sW sB hpos).symm.trans hm
    rw [Option.some.injEq] at hmeq
    subst hmeq
    rfl
  · intro sW sB m hm hW hB idx
    have hmeq := (Linear.init_eq 100 1 true sW sB (by decide)).symm.trans hm
    rw [Option.some.injEq] at hmeq
    have hweq : m.weight = ⟨[1, 100], sW⟩ := by rw [← hmeq]
    have hbeq : m.bias = some ⟨[1], sB⟩ := by
      rw [← hmeq]
      rfl
    have hw := hW idx
    have hb := hB idx
    rw [hweq] at hw hb
    have hs100 : (⟨[1, 100], sW⟩ : Tensor).size 1 = 100 := rfl
    rw [hs100] at hw hb
    unfold inInitBound at hw hb
    push_cast at hw hb
    rw [hweq]
    have hv : (⟨[1, 100], sW⟩ : Tensor).val idx = sW idx := rfl
    rw [hv]
    constructor
    · constructor
      · nlinarith [sq_nonneg (sW idx + 1/10)]
      · nlinarith [sq_nonneg (sW idx - 1/10)]
    · intro b hb2
      rw [hbeq, Option.some.injEq] at hb2
      subst hb2
      have hv2 : (⟨[1], sB⟩ : Tensor).val idx = sB idx := rfl
      rw [hv2]
      constructor
      · nlinarith [sq_nonneg (sB idx + 1/10)]
      · nlinarith [sq_nonneg (sB idx - 1/10)]

/-- Witness for C4: the constant sampler `7/100` satisfies the bound
contract for fan-in `100`, and the resulting weight and bias elements
lie in `[-1/10, 1/10]`. -/
theorem C4_init_bound_witness :
    Linear.init 100 1 true (fun _ => 7/100) (fun _ => 7/100) =
      some ⟨100, 1, ⟨[1, 100], fun _ => 7/100⟩, some ⟨[1], fun _ => 7/100⟩⟩ ∧
    (-(1/10 : ℚ) ≤
        (⟨100, 1, ⟨[1, 100], fun _ => 7/100⟩,
          some ⟨[1], fun _ => 7/100⟩⟩ : Linear).weight.val [0, 0] ∧
      (⟨100, 1, ⟨[1, 100], fun _ => 7/100⟩,
        some ⟨[1], fun _ => 7/100⟩⟩ : Linear).weight.val [0, 0] ≤ 1/10) ∧
    ∀ b : Tensor,
      (⟨100, 1, ⟨[1, 100], fun _ => 7/100⟩,
        some ⟨[1], fun _ => 7/100⟩⟩ : Linear).bias = some b →
        -(1/10 : ℚ) ≤ b.val [0, 0] ∧ b.val [0, 0] ≤ 1/10 := by
  have h := C4_init_bound.2.2 (fun _ => 7/100) (fun _ => 7/100)
    ⟨100, 1, ⟨[1, 100], fun _ => 7/100⟩, some ⟨[1], fun _ => 7/100⟩⟩ rfl
    (fun _ => by norm_num [inInitBound, Tensor.size])
    (fun _ => by norm_num [inInitBound, Tensor.size])
    [0, 0]
  exact ⟨rfl, h.1, h.2⟩

/-! ### Broadcasting lemmas for FiLM -/

theorem broadcastDim_self (a : ℕ) : broadcastDim a a = some a := by
  simp [broadcastDim]

theorem broadcastDim_one_left (b : ℕ) : broadcastDim 1 b = some b := by
  unfold broadcastDim
  by_cases h : (1 : ℕ) = b
  · subst h; simp
  · simp [h]

theorem broadcastDim_one_right (a : ℕ) : broadcastDim a 1 = some a := by
  unfold broadcastDim
  by_cases h : a = 1
  · subst h; simp
  · simp [h]

theorem zipBcast_append_self (p s1 s2 r : List ℕ) (h : zipBcast s1 s2 = some r) :
    zipBcast (p ++ s1) (p ++ s2) = some (p ++ r) := by
  induction p with
  | nil => simpa using h
  | cons a p ih => simp [zipBcast, broadcastDim_self, ih]

theorem zipBcast_ones_left (r : List ℕ) :
    zipBcast (List.replicate r.length 1) r = some r := by
  induction r with
  | nil => rfl
  | cons a r ih => simp [List.replicate, zipBcast, broadcastDim_one_left, ih]

theorem zipBcast_ones_right (r : List ℕ) :
    zipBcast r (List.replicate r.length 1) = some r := by
  induction r with
  | nil => rfl
  | cons a r ih => simp [List.replicate, zipBcast, broadcastDim_one_right, ih]

theorem broadcastShape_eq_len (s1 s2 : List ℕ) (h : s1.length = s2.length) :
    broadcastShape s1 s2 = zipBcast s1 s2 := by
  simp [broadcastShape, padTo, h]

theorem unsqueezeLastN_shape (t : Tensor) (k : ℕ) :
    (t.unsqueezeLastN k).shape = t.shape ++ List.replicate k 1 := by
  induction k with
  | zero => simp [Tensor.unsqueezeLastN]
  | succ k ih =>
      simp [Tensor.unsqueezeLastN, Tensor.unsqueezeLast, ih, List.replicate_succ']

theorem unsqueezeLastN_val (t : Tensor) (k : ℕ) (idx : List ℕ) :
    (t.unsqueezeLastN k).val (idx ++ List.replicate k 0) = t.val idx := by
  induction k with
  | zero => simp [Tensor.unsqueezeLastN]
  | succ k ih =>
      have hsplit : idx ++ List.replicate (k + 1) 0 = (idx ++ List.replicate k 0) ++ [0] := by
        simp [List.replicate_succ']
      simp [Tensor.unsqueezeLastN, Tensor.unsqueezeLast, hsplit, List.dropLast_concat, ih]

theorem validIdx_length (s idx : List ℕ) (h : Tensor.validIdx s idx = true) :
    idx.length = s.length := by
  induction s generalizing idx with
  | nil => cases idx with
    | nil => rfl
    | cons i is => simp [Tensor.validIdx] at h
  | cons d s ih => cases idx with
    | nil => simp [Tensor.validIdx] at h
    | cons i is =>
        simp only [Tensor.validIdx, Bool.and_eq_true, decide_eq_true_eq] at h
        simp [ih is h.2]

theorem clampIdx_valid (s idx : List ℕ) (h : Tensor.validIdx s idx = true) :
    clampIdx s idx = idx := by
  induction s generalizing idx with
  | nil => cases idx with
    | nil => rfl
    | cons i is => simp [Tensor.validIdx] at h
  | cons d s ih => cases idx with
    | nil => simp [Tensor.validIdx] at h
    | cons i is =>
        simp only [Tensor.validIdx, Bool.and_eq_true, decide_eq_true_eq] at h
        have hi : (if d = 1 then 0 else i) = i := by
          by_cases hd : d = 1
          · subst hd
            have hz : i = 0 := by omega
            simp [hz]
          · simp [hd]
        have h2 := ih is h.2
        simp only [clampIdx] at h2
        simp only [clampIdx, List.zipWith_cons_cons, hi, h2]

theorem bcastIdx_valid (s idx : List ℕ) (h : Tensor.validIdx s idx = true) :
    bcastIdx s idx = idx := by
  unfold bcastIdx
  rw [validIdx_length s idx h, Nat.sub_self, List.drop_zero]
  exact clampIdx_valid s idx h

theorem clampIdx_ones (ridx : List ℕ) :
    clampIdx (List.replicate ridx.length 1) ridx = List.replicate ridx.length 0 := by
  induction ridx with
  | nil => rfl
  | cons i is ih =>
      have h2 : List.zipWith (fun d i => if d = 1 then 0 else i)
          (List.replicate is.length 1) is = List.replicate is.length 0 := by
        simpa [clampIdx] using ih
      simp [List.replicate, clampIdx, List.zipWith_cons_cons, h2]

theorem Tensor.bcastOp_eq (f : ℚ → ℚ → ℚ) (t1 t2 : Tensor) (s : List ℕ)
    (h : broadcastShape t1.shape t2.shape = some s) :
    Tensor.bcastOp f t1 t2 = some ⟨s, fun idx =>
      f (t1.val (bcastIdx t1.shape idx)) (t2.val (bcastIdx t2.shape idx))⟩ := by
  unfold Tensor.bcastOp
  rw [h]

theorem FiLM.forward_spec (input scale shift : Tensor) (N C : ℕ) (rest : List ℕ)
    (hin : input.shape = N :: C :: rest) (hs : scale.shape = [N, C])
    (hsh : shift.shape = [N, C]) :
    ∃ out : Tensor,
      FiLM.forward input scale shift = some out ∧
      out.shape = input.shape ∧
      ∀ n c : ℕ, ∀ ridx : List ℕ, n < N → c < C → Tensor.validIdx rest ridx = true →
        out.val (n :: c :: ridx) =
          scale.val [n, c] * input.val (n :: c :: ridx) + shift.val [n, c] := by
  have hk : input.dim - 2 = rest.length := by
    simp [Tensor.dim, hin]
  have hgs : (scale.unsqueezeLastN rest.length).shape =
      [N, C] ++ List.replicate rest.length 1 := by
    rw [unsqueezeLastN_shape, hs]
  have hbs : (shift.unsqueezeLastN rest.length).shape =
      [N, C] ++ List.replicate rest.length 1 := by
    rw [unsqueezeLastN_shape, hsh]
  have hlen1 : ([N, C] ++ List.replicate rest.length 1).length = (N :: C :: rest).length := by
    simp
  have hbshape1 : broadcastShape ([N, C] ++ List.replicate rest.length 1) (N :: C :: rest) =
      some (N :: C :: rest) := by
    rw [broadcastShape_eq_len _ _ hlen1]
    have h := zipBcast_append_self [N, C] (List.replicate rest.length 1) rest rest
      (zipBcast_ones_left rest)
    simpa using h
  have hbshape2 : broadcastShape (N :: C :: rest) ([N, C] ++ List.replicate rest.length 1) =
      some (N :: C :: rest) := by
    rw [broadcastShape_eq_len _ _ hlen1.symm]
    have h := zipBcast_append_self [N, C] rest (List.replicate rest.length 1) rest
      (zipBcast_ones_right rest)
    simpa using h
  have h1 := Tensor.bcastOp_eq (fun x y => x * y) (scale.unsqueezeLastN rest.length) input
    (N :: C :: rest) (by rw [hgs, hin]; exact hbshape1)
  have hforward : FiLM.forward input scale shift =
      Tensor.bcastOp (fun x y => x + y)
        ⟨N :: C :: rest, fun idx =>
          (scale.unsqueezeLastN rest.length).val
              (bcastIdx (scale.unsqueezeLastN rest.length).shape idx) *
            input.val (bcastIdx input.shape idx)⟩
        (shift.unsqueezeLastN rest.length) := by
    simp only [FiLM.forward]
    rw [hk, h1]
    rfl
  have h2 := Tensor.bcastOp_eq (fun x y => x + y)
    ⟨N :: C :: rest, fun idx =>
      (scale.unsqueezeLastN rest.length).val
          (bcastIdx (scale.unsqueezeLastN rest.length).shape idx) *
        input.val (bcastIdx input.shape idx)⟩
    (shift.unsqueezeLastN rest.length)
    (N :: C :: rest) (by rw [hbs]; exact hbshape2)
  have hfull : FiLM.forward input scale shift = some
      ⟨N :: C :: rest, fun idx =>
        (scale.unsqueezeLastN rest.length).val
            (bcastIdx (scale.unsqueezeLastN rest.length).shape
              (bcastIdx (N :: C :: rest) idx)) *
          input.val (bcastIdx input.shape (bcastIdx (N :: C :: rest) idx)) +
        (shift.unsqueezeLastN rest.length).val
          (bcastIdx (shift.unsqueezeLastN rest.length).shape idx)⟩ :=
    hforward.trans h2
  refine ⟨_, hfull, by rw [hin], ?_⟩
  intro n c ridx hn hc hval
  have hvidx : Tensor.validIdx (N :: C :: rest) (n :: c :: ridx) = true := by
    simp [Tensor.validIdx, hn, hc, hval]
  have hidx1 : bcastIdx (N :: C :: rest) (n :: c :: ridx) = n :: c :: ridx :=
    bcastIdx_valid _ _ hvidx
  have hridlen : ridx.length = rest.length := by
    have h := validIdx_length rest ridx hval
    exact h
  have hidx2 : bcastIdx ([N, C] ++ List.replicate rest.length 1) (n :: c :: ridx) =
      n :: c :: List.replicate rest.length 0 := by
    unfold bcastIdx
    have hlen2 : (n :: c :: ridx).length -
        ([N, C] ++ List.replicate rest.length 1).length = 0 := by
      simp [hridlen]
    rw [hlen2, List.drop_zero]
    have hn1 : (if N = 1 then 0 else n) = n := by
      by_cases hN : N = 1
      · subst hN
        have hz : n = 0 := by omega
        simp [hz]
      · simp [hN]
    have hc1 : (if C = 1 then 0 else c) = c := by
      by_cases hC : C = 1
      · subst hC
        have hz : c = 0 := by omega
        simp [hz]
      · simp [hC]
    have hco : List.zipWith (fun d i => if d = 1 then 0 else i)
        (List.replicate rest.length 1) ridx = List.replicate rest.length 0 := by
      have h := clampIdx_ones ridx
      rw [hridlen] at h
      simpa [clampIdx] using h
    show List.zipWith (fun d i => if d = 1 then 0 else i)
        (N :: C :: List.replicate rest.length 1) (n :: c :: ridx) =
      n :: c :: List.replicate rest.length 0
    simp [List.zipWith_cons_cons, hn1, hc1, hco]
  show (scale.unsqueezeLastN rest.length).val
      (bcastIdx (scale.unsqueezeLastN rest.length).shape
        (bcastIdx (N :: C :: rest) (n :: c :: ridx))) *
    input.val (bcastIdx input.shape (bcastIdx (N :: C :: rest) (n :: c :: ridx))) +
    (shift.unsqueezeLastN rest.length).val
      (bcastIdx (shift.unsqueezeLastN rest.length).shape (n :: c :: ridx)) =
    scale.val [n, c] * input.val (n :: c :: ridx) + shift.val [n, c]
  rw [hidx1, hgs, hbs, hin, hidx1, hidx2]
  have hsv : (scale.unsqueezeLastN rest.length).val
      (n :: c :: List.replicate rest.length 0) = scale.val [n, c] :=
    unsqueezeLastN_val scale rest.length [n, c]
  have hshv : (shift.unsqueezeLastN rest.length).val
      (n :: c :: List.replicate rest.length 0) = shift.val [n, c] :=
    unsqueezeLastN_val shift rest.length [n, c]
  rw [hsv, hshv]

/-- C3: For every FeatureModulation call `forward(input, scale, shift)`
with `input` of shape `(N, C, *)` and `scale`, `shift` of shape
`(N, C)`, the result has the same shape as `input` and satisfies
`output[n, c, ...] = scale[n, c] * input[n, c, ...] + shift[n, c]`
(scale and shift broadcast by appended singleton axes); with scale all
ones and shift all zeros the input entries are returned unchanged. -/
theorem C3_film_forward (input scale shift : Tensor) (N C : ℕ) (rest : List ℕ)
    (hin : input.shape = N :: C :: rest) (hs : scale.shape = [N, C])
    (hsh : shift.shape = [N, C]) :
    ∃ out : Tensor,
      FiLM.forward input scale shift = some out ∧
      out.shape = input.shape ∧
      (∀ n c : ℕ, ∀ ridx : List ℕ, n < N → c < C → Tensor.validIdx rest ridx = true →
        out.val (n :: c :: ridx) =
          scale.val [n, c] * input.val (n :: c :: ridx) + shift.val [n, c]) ∧
      ((∀ n c : ℕ, n < N → c < C → scale.val [n, c] = 1 ∧ shift.val [n, c] = 0) →
        ∀ n c : ℕ, ∀ ridx : List ℕ, n < N → c < C → Tensor.validIdx rest ridx = true →
          out.val (n :: c :: ridx) = input.val (n :: c :: ridx)) := by
  obtain ⟨out, h1, h2, h3⟩ := FiLM.forward_spec input scale shift N C rest hin hs hsh
  refine ⟨out, h1, h2, h3, ?_⟩
  intro hone n c ridx hn hc hval
  rw [h3 n c ridx hn hc hval, (hone n c hn hc).1, (hone n c hn hc).2]
  ring

/-- Witness for C3, the literal check from the spec: input of shape
`(1, 1, 2, 2)` filled with `5`, `scale = [[2]]`, `shift = [[1]]` gives
an output of the input's shape filled with `11`. -/
theorem C3_film_forward_witness :
    ∃ out : Tensor,
      FiLM.forward ⟨[1, 1, 2, 2], fun _ => 5⟩ ⟨[1, 1], fun _ => 2⟩ ⟨[1, 1], fun _ => 1⟩ =
        some out ∧
      out.shape = [1, 1, 2, 2] ∧
      out.val [0, 0, 0, 0] = 11 ∧ out.val [0, 0, 1, 1] = 11 := by
  obtain ⟨out, h1, h2, h3, h4⟩ :=
    C3_film_forward ⟨[1, 1, 2, 2], fun _ => 5⟩ ⟨[1, 1], fun _ => 2⟩ ⟨[1, 1], fun _ => 1⟩
      1 1 [2, 2] rfl rfl rfl
  refine ⟨out, h1, h2, ?_, ?_⟩
  · have h := h3 0 0 [0, 0] (by decide) (by decide) (by decide)
    rw [h]
    norm_num
  · have h := h3 0 0 [1, 1] (by decide) (by decide) (by decide)
    rw [h]
    norm_num

/-- Counterexample to C5: `FiLM.forward` does not fail on a `scale` of
rank ≠ 2 — with input of shape `(2, 2)` and scale, shift of shape
`(1,)` (rank 1), the call returns a result by broadcasting instead of
raising any ShapeMismatch before the arithmetic. -/
theorem C5_film_no_validation_cex :
    (FiLM.forward ⟨[2, 2], fun _ => 5⟩ ⟨[1], fun _ => 2⟩ ⟨[1], fun _ => 3⟩).isSome = true ∧
    (FiLM.forward ⟨[2, 2], fun _ => 5⟩ ⟨[1], fun _ => 2⟩ ⟨[1], fun _ => 3⟩).map
        (fun t => t.val [0, 0]) = some 13 := by
  constructor
  · rfl
  · have h : (FiLM.forward ⟨[2, 2], fun _ => 5⟩ ⟨[1], fun _ => 2⟩ ⟨[1], fun _ => 3⟩).map
        (fun t => t.val [0, 0]) = some ((2 : ℚ) * 5 + 3) := rfl
    rw [h]
    norm_num

/-- C5 amended: `FiLM.forward` performs no shape validation of its own;
it fails exactly when the tensor library's broadcasting of the
(unsqueezed) scale against the input, or of their product against the
(unsqueezed) shift, fails — never before any arithmetic — and a
non-broadcastable shape (e.g. scale of shape `(3,)` with input
`(2, 2)`) is the only way it errors. -/
theorem C5_film_amended (input gammas betas : Tensor) :
    (FiLM.forward input gammas betas = none ↔
      broadcastShape (gammas.unsqueezeLastN (input.dim - 2)).shape input.shape = none ∨
      ∃ s : List ℕ,
        broadcastShape (gammas.unsqueezeLastN (input.dim - 2)).shape input.shape = some s ∧
        broadcastShape s (betas.unsqueezeLastN (input.dim - 2)).shape = none) ∧
    FiLM.forward ⟨[2, 2], fun _ => 5⟩ ⟨[3], fun _ => 0⟩ ⟨[3], fun _ => 0⟩ = none := by
  constructor
  · simp only [FiLM.forward, Tensor.bcastOp]
    cases hg : broadcastShape (gammas.unsqueezeLastN (input.dim - 2)).shape input.shape with
    | none => simp [hg]
    | some s =>
        cases hb : broadcastShape s (betas.unsqueezeLastN (input.dim - 2)).shape with
        | none => simp [hg, hb]
        | some s2 => simp [hg, hb]
  · rfl

/-- C10: `FiLM.forward` performs no shape validation; the number of
appended singleton axes is `input.dim() - 2`, determined solely by
the input's rank, so for input of rank ≤ 2 the unsqueeze loop runs
zero times and the result is `gammas * input + betas` under the
library's standard broadcasting; in particular a rank-1 input of shape
`(2,)` with gammas, betas of shape `(2, 2)` yields an output of shape
`(2, 2)` — larger than the input — rather than an error. -/
theorem C10_film_rank_le_two :
    (∀ input gammas betas : Tensor, input.dim ≤ 2 →
      FiLM.forward input gammas betas =
        (Tensor.bcastOp (fun x y => x * y) gammas input).bind fun p =>
          Tensor.bcastOp (fun x y => x + y) p betas) ∧
    (FiLM.forward ⟨[2], fun _ => 5⟩ ⟨[2, 2], fun _ => 3⟩ ⟨[2, 2], fun _ => 1⟩).map
        Tensor.shape = some [2, 2] := by
  constructor
  · intro input gammas betas h
    unfold FiLM.forward
    rw [Nat.sub_eq_zero_of_le h]
    rfl
  · rfl

/-- Witness for C10: at a concrete rank-1 input the unsqueeze count is
zero and the forward call is the plain broadcast expression. -/
theorem C10_film_rank_le_two_witness :
    FiLM.forward ⟨[2], fun _ => 5⟩ ⟨[2, 2], fun _ => 3⟩ ⟨[2, 2], fun _ => 1⟩ =
      (Tensor.bcastOp (fun x y => x * y) ⟨[2, 2], fun _ => 3⟩ ⟨[2], fun _ => 5⟩).bind
        fun p => Tensor.bcastOp (fun x y => x + y) p ⟨[2, 2], fun _ => 1⟩ :=
  C10_film_rank_le_two.1 ⟨[2], fun _ => 5⟩ ⟨[2, 2], fun _ => 3⟩ ⟨[2, 2], fun _ => 1⟩
    (by decide)
